import Mathlib

/-!
Verification of the TunaDex anomaly-detection and aggregation core.

The definitions below are a shallow embedding of the Python sources:
* `src/tunadex/email/parser.py` (`extract_awbs` and the AWB regular expression
  from `src/tunadex/config.py`),
* `src/tunadex/anomaly/detector.py` (the `AnomalyDetector` checks and the
  `SPECIES_WEIGHT_RANGES` table),
* `src/tunadex/extraction/schema.py` (the record model and
  `DailyPayload.compute_totals`).

Modelling conventions: Python `float` is modelled as `Rat` (the claims under
study concern only exact sums and comparisons, never rounding), Python `int`
as `Int`, insertion-ordered `dict` / `Counter` as insertion-ordered
association lists, and text as ASCII strings (`Char` predicates model the
ASCII fragment of Python's `\d`, `\s`, `\w` and `str.lower`).
-/

/-! ### Generic list helpers (Counter / dict modelling) -/

/-- Append `x` unless already present; `foldl insFirst` keeps first-occurrence
order, exactly like key insertion order of a Python `dict` / `Counter`. -/
def insFirst {α : Type} [DecidableEq α] (acc : List α) (x : α) : List α :=
  if x ∈ acc then acc else acc ++ [x]

/-- The distinct elements of `l` in first-occurrence order. -/
def dedupFirst {α : Type} [DecidableEq α] (l : List α) : List α :=
  l.foldl insFirst []

/-- `collections.Counter(l).items()`: each distinct element of `l` paired with
its multiplicity, in first-occurrence order. -/
def counterItems {α : Type} [DecidableEq α] (l : List α) : List (α × Nat) :=
  (dedupFirst l).map (fun x => (x, l.count x))

/-! ### Character classes (ASCII fragment of Python regex classes) -/

/-- Python regex `\w` (ASCII): letters, digits, underscore. -/
def isWordChar (c : Char) : Bool :=
  c.isAlphanum || c = '_'

/-- Python regex `\s` (ASCII): space, tab, newline, carriage return,
vertical tab, form feed. -/
def isSpaceChar (c : Char) : Bool :=
  c = ' ' || c = '\t' || c = '\n' || c = '\r' || c.toNat = 11 || c.toNat = 12

/-- The character class `[-\s]` used as an optional AWB group separator and
stripped by `re.sub` during normalisation. -/
def isSepChar (c : Char) : Bool :=
  c = '-' || isSpaceChar c

/-! ### The AWB regular expression

`config.AWB_PATTERN` is the pattern `\b` `(` `\d` x3 `[-\s]?` `\d` x4
`[-\s]?` `\d` x4 `)` `\b` and is consumed with `re.findall`, which returns
the capture group of each non-overlapping leftmost match, scanning left to
right.  Because a separator character and a digit are disjoint, the optional
separator is deterministic and no cross-alternative backtracking can occur,
so the matcher below is an exact model. -/

/-- Match exactly `n` digits, returning them and the rest of the input. -/
def takeDigits : Nat → List Char → Option (List Char × List Char)
  | 0, r => some ([], r)
  | _ + 1, [] => none
  | n + 1, c :: r =>
    if c.isDigit then (takeDigits n r).map (fun dr => (c :: dr.1, dr.2))
    else none

/-- Match `[-\s]?` followed by exactly four digits. -/
def sepBlock (r : List Char) : Option (List Char × List Char) :=
  match r with
  | c :: r' =>
    if isSepChar c then (takeDigits 4 r').map (fun dr => (c :: dr.1, dr.2))
    else takeDigits 4 r
  | [] => none

/-- Match the capture group: three digits, then two `[-\s]?`-plus-four-digit
blocks.  Returns the matched text and the remaining input. -/
def matchCore (r : List Char) : Option (List Char × List Char) :=
  match takeDigits 3 r with
  | none => none
  | some (d1, r1) =>
    match sepBlock r1 with
    | none => none
    | some (m2, r2) =>
      match sepBlock r2 with
      | none => none
      | some (m3, r3) => some (d1 ++ m2 ++ m3, r3)

/-- Is the character before the current position a word character?
(`none` models the start of the string.) -/
def prevIsWord : Option Char → Bool
  | none => false
  | some c => isWordChar c

/-- Is the character at the current position a word character?
(`[]` models the end of the string.) -/
def headIsWord : List Char → Bool
  | [] => false
  | c :: _ => isWordChar c

/-- Attempt a full-pattern match at the current position: the leading `\b`
(the first matched character is a digit, hence a word character, so the
boundary holds iff the previous character is not one), the core, and the
trailing `\b` (symmetrically, the next character must not be one). -/
def tryMatchAt (prev : Option Char) (r : List Char) :
    Option (List Char × List Char) :=
  if prevIsWord prev then none
  else
    match matchCore r with
    | none => none
    | some (m, r') => if headIsWord r' then none else some (m, r')

/-- `re.findall` scan: try each position left to right, and on a match emit
the capture group and resume right after it.  `fuel` is an upper bound on the
number of steps; every step consumes at least one character, so
`length + 1` fuel is always enough. -/
def scanAux : Nat → Option Char → List Char → List (List Char)
  | 0, _, _ => []
  | _ + 1, _, [] => []
  | fuel + 1, prev, c :: cs =>
    match tryMatchAt prev (c :: cs) with
    | some (m, r') => m :: scanAux fuel m.getLast? r'
    | none => scanAux fuel (some c) cs

/-- All matches of `AWB_PATTERN` in the text, in document order. -/
def awbFindAll (text : List Char) : List (List Char) :=
  scanAux (text.length + 1) none text

/-- `re.sub` of the class `[-\s]` by the empty string. -/
def stripSeps (m : List Char) : List Char :=
  m.filter (fun c => !(isSepChar c))

/-- `parser.extract_awbs`: find all AWB-shaped substrings and strip the
separators from each. -/
def extract_awbs (text : String) : List String :=
  (awbFindAll text.toList).map (fun m => String.mk (stripSeps m))

/-! ### Record model (`extraction/schema.py`) -/

inductive AttachmentType where
  | PDF
  | EXCEL
  | CSV
  | IMAGE
  | OTHER
  deriving DecidableEq

inductive AnomalyType where
  | DOUBLE_COUNT
  | MISSING_PAPERWORK
  | AWB_MISMATCH
  | WEIGHT_OUTLIER
  | MISSING_AWB
  | MISSING_DATA
  deriving DecidableEq

inductive Severity where
  | WARNING
  | ERROR
  deriving DecidableEq

structure AttachmentMeta where
  attachment_id : String
  filename : String
  mime_type : String
  size_bytes : Int := 0
  attachment_type : AttachmentType := AttachmentType.OTHER
  drive_url : Option String := none
  deriving DecidableEq

structure EmailDetail where
  message_id : String
  thread_id : String
  subject : String := ""
  sender : String := ""
  date : Option String := none
  body_text : String := ""
  body_html : String := ""
  attachments : List AttachmentMeta := []
  deriving DecidableEq

/-- One line item of a shipment.  The pydantic model declares the field types
but no range constraint, so construction applies no sign validation. -/
structure ShipmentLine where
  customer_name : String
  company : Option String := none
  species : String
  boxes : Option Int := none
  weight_lbs : Option Rat := none
  size_category : Option String := none
  count_per_box : Option Int := none
  notes : Option String := none
  deriving DecidableEq

/-- Pydantic construction of a `ShipmentLine` from well-typed field values.
The model (`schema.py` lines 70-79) declares plain type annotations with no
`Field` constraint and no validator, so validation never fails on well-typed
input; in particular negative `boxes` or `weight_lbs` are accepted. -/
def mkShipmentLine (customer_name : String) (company : Option String)
    (species : String) (boxes : Option Int) (weight_lbs : Option Rat)
    (size_category : Option String) (count_per_box : Option Int)
    (notes : Option String) : Except String ShipmentLine :=
  Except.ok
    { customer_name := customer_name, company := company, species := species,
      boxes := boxes, weight_lbs := weight_lbs,
      size_category := size_category, count_per_box := count_per_box,
      notes := notes }

/-- A shipment.  The calendar `date` is kept as its ISO text: the core only
reads it back verbatim into anomaly descriptions. -/
structure Shipment where
  awb : String
  date : String
  supplier : String
  freight_forwarder : Option String := none
  lines : List ShipmentLine := []
  source_email_ids : List String := []
  deriving DecidableEq

structure Anomaly where
  anomaly_type : AnomalyType
  severity : Severity
  description : String
  related_awb : Option String := none
  related_emails : List String := []
  deriving DecidableEq

structure SpeciesTotal where
  boxes : Int := 0
  weight_lbs : Rat := 0
  deriving DecidableEq

structure CustomerTotal where
  boxes : Int := 0
  weight_lbs : Rat := 0
  order_count : Int := 0
  deriving DecidableEq

/-- Aggregated totals.  The two breakdowns are Python dicts, modelled as
insertion-ordered association lists. -/
structure ShipmentTotals where
  total_boxes : Int := 0
  total_weight_lbs : Rat := 0
  species_breakdown : List (String × SpeciesTotal) := []
  customer_breakdown : List (String × CustomerTotal) := []
  deriving DecidableEq

structure DailyPayload where
  date : String
  run_timestamp : String
  emails_processed : Int := 0
  shipments : List Shipment := []
  anomalies : List Anomaly := []
  totals : ShipmentTotals := {}
  deriving DecidableEq

/-! ### Anomaly detector (`anomaly/detector.py`) -/

/-- `SPECIES_WEIGHT_RANGES`: rough (min, max) weight in lbs per species. -/
def SPECIES_WEIGHT_RANGES : List (String × Rat × Rat) :=
  [("swordfish", 40, 500),
   ("yellowtail", 5, 200),
   ("yellowfin tuna", 20, 400),
   ("bigeye tuna", 20, 500),
   ("albacore tuna", 10, 200),
   ("black grouper", 5, 150),
   ("salmon", 5, 150),
   ("snapper", 5, 100),
   ("red snapper", 5, 100),
   ("tilefish", 5, 100),
   ("opah", 20, 300),
   ("mahi mahi", 5, 150)]

/-- `SPECIES_WEIGHT_RANGES.get(key)`. -/
def rangeFor (k : String) : Option (Rat × Rat) :=
  (SPECIES_WEIGHT_RANGES.find? (fun e => e.1 == k)).map (fun e => e.2)

/-- Python `str.lower` (ASCII): lowercase each character.  Implemented over
the character list so that it reduces in the kernel. -/
def strLower (s : String) : String :=
  String.mk (s.data.map Char.toLower)

/-- The AWB multiset fed to `Counter` in `check_double_counts`:
`(s.awb for s in shipments if s.awb != "MISSING")`. -/
def nonMissingAwbs (shipments : List Shipment) : List String :=
  (shipments.filter (fun s => s.awb != "MISSING")).map (fun s => s.awb)

/-- The `(customer_name.lower(), species.lower())` key of every line across
the given shipments, in shipment-then-line order. -/
def doubleCountKeyPairs (dupes : List Shipment) : List (String × String) :=
  dupes.flatMap (fun s =>
    s.lines.map (fun l => (strLower l.customer_name, strLower l.species)))

/-- The single anomaly `check_double_counts` emits for a duplicated AWB:
ERROR when some line key repeats across the shipments sharing the AWB,
WARNING otherwise.  `related_emails` is the list-comprehension concatenation
of the duplicates' source email ids (duplicates preserved).  Numeric values
are rendered with `Rat`/`Nat` `toString` where the source prints Python
numbers. -/
def doubleCountAnomaly (shipments : List Shipment) (awb : String)
    (count : Nat) : Anomaly :=
  let dupes := shipments.filter (fun s => s.awb == awb)
  let all_lines := doubleCountKeyPairs dupes
  let duplicate_lines := (counterItems all_lines).filter (fun kv => 1 < kv.2)
  let related := dupes.flatMap (fun s => s.source_email_ids)
  if duplicate_lines = [] then
    { anomaly_type := AnomalyType.DOUBLE_COUNT,
      severity := Severity.WARNING,
      description :=
        "AWB " ++ awb ++ " appears in " ++ toString count ++
        " emails but with different line items — may be a split shipment (review manually).",
      related_awb := some awb,
      related_emails := related }
  else
    { anomaly_type := AnomalyType.DOUBLE_COUNT,
      severity := Severity.ERROR,
      description :=
        "AWB " ++ awb ++ " appears " ++ toString count ++
        " times with duplicate line items: " ++
        String.intercalate ", "
          (duplicate_lines.map (fun kv =>
            kv.1.1 ++ "/" ++ kv.1.2 ++ " (x" ++ toString kv.2 ++ ")")) ++
        ". This is likely double-counted.",
      related_awb := some awb,
      related_emails := related }

/-- `AnomalyDetector.check_double_counts`. -/
def checkDoubleCounts (shipments : List Shipment) : List Anomaly :=
  (counterItems (nonMissingAwbs shipments)).foldl
    (fun anomalies kv =>
      if kv.2 ≤ 1 then anomalies
      else anomalies ++ [doubleCountAnomaly shipments kv.1 kv.2]) []

/-- The anomaly emitted for one (email, mentioned AWB) pair in
`check_missing_paperwork`. -/
def missingPaperworkAnomaly (email : EmailDetail) (awb : String) : Anomaly :=
  { anomaly_type := AnomalyType.MISSING_PAPERWORK,
    severity := Severity.WARNING,
    description :=
      "Email '" ++ email.subject ++ "' mentions AWB " ++ awb ++
      " but no shipment data was extracted for it. Missing paperwork?",
    related_awb := some awb,
    related_emails := [email.message_id] }

/-- `AnomalyDetector.check_missing_paperwork`.  The source keeps the
extracted AWBs in a set used only for membership tests, so a list model is
equivalent. -/
def checkMissingPaperwork (emails : List EmailDetail)
    (shipments : List Shipment) : List Anomaly :=
  let extracted := nonMissingAwbs shipments
  emails.foldl
    (fun anomalies email =>
      let mentioned := extract_awbs (email.body_text ++ " " ++ email.subject)
      mentioned.foldl
        (fun anomalies awb =>
          if awb ∈ extracted then anomalies
          else anomalies ++ [missingPaperworkAnomaly email awb]) anomalies)
    []

/-- `re.compile(^ \d x11 $).match(s)` is truthy.  Note Python's `$` also
matches just before a newline at the very end of the string, so eleven
digits followed by a single trailing newline are accepted too. -/
def matchesCleanPattern (s : String) : Bool :=
  match takeDigits 11 s.toList with
  | some dr => decide (dr.2 = [] ∨ dr.2 = ['\n'])
  | none => false

def missingAwbAnomaly (s : Shipment) : Anomaly :=
  { anomaly_type := AnomalyType.MISSING_AWB,
    severity := Severity.ERROR,
    description :=
      "Shipment from " ++ s.supplier ++ " on " ++ s.date ++
      " has no AWB. This needs manual review.",
    related_awb := none,
    related_emails := s.source_email_ids }

def awbMismatchAnomaly (s : Shipment) : Anomaly :=
  { anomaly_type := AnomalyType.AWB_MISMATCH,
    severity := Severity.WARNING,
    description :=
      "AWB '" ++ s.awb ++
      "' has non-standard format (expected 11 digits). Verify correctness.",
    related_awb := some s.awb,
    related_emails := s.source_email_ids }

/-- `AnomalyDetector.check_awb_consistency`. -/
def checkAwbConsistency (shipments : List Shipment) : List Anomaly :=
  shipments.foldl
    (fun anomalies s =>
      if s.awb = "MISSING" then anomalies ++ [missingAwbAnomaly s]
      else if matchesCleanPattern s.awb then anomalies
      else anomalies ++ [awbMismatchAnomaly s]) []

/-- The anomaly emitted for one out-of-range line in
`check_weight_outliers`. -/
def weightOutlierAnomaly (s : Shipment) (l : ShipmentLine)
    (w mn mx : Rat) : Anomaly :=
  { anomaly_type := AnomalyType.WEIGHT_OUTLIER,
    severity := Severity.WARNING,
    description :=
      "AWB " ++ s.awb ++ ": " ++ l.species ++ " to " ++ l.customer_name ++
      " weighs " ++ toString w ++ " lbs, outside typical range (" ++
      toString mn ++ "-" ++ toString mx ++ " lbs). Verify weight.",
    related_awb := some s.awb,
    related_emails := s.source_email_ids }

/-- `AnomalyDetector.check_weight_outliers`. -/
def checkWeightOutliers (shipments : List Shipment) : List Anomaly :=
  shipments.foldl
    (fun anomalies s =>
      s.lines.foldl
        (fun anomalies l =>
          match l.weight_lbs with
          | none => anomalies
          | some w =>
            match rangeFor (strLower l.species) with
            | none => anomalies
            | some (mn, mx) =>
              if w < mn ∨ mx < w then
                anomalies ++ [weightOutlierAnomaly s l w mn mx]
              else anomalies) anomalies) []

/-- `AnomalyDetector.run_all_checks`: the four checks concatenated in fixed
order. -/
def runAllChecks (emails : List EmailDetail) (shipments : List Shipment) :
    List Anomaly :=
  checkDoubleCounts shipments ++ checkMissingPaperwork emails shipments ++
    checkAwbConsistency shipments ++ checkWeightOutliers shipments

/-! ### Aggregator (`DailyPayload.compute_totals`) -/

/-- Python `a or b` on an optional string: an empty string is falsy, so it
falls back to `b` exactly like `none` does. -/
def pyOrString (o : Option String) (d : String) : String :=
  match o with
  | none => d
  | some s => if s = "" then d else s

/-- `species.setdefault(k, SpeciesTotal())` followed by in-place `+=` on its
`boxes` and `weight_lbs`: update the existing entry in place, or append a
fresh one at the end (dict insertion order). -/
def updSpecies : List (String × SpeciesTotal) → String → Int → Rat →
    List (String × SpeciesTotal)
  | [], k, b, w => [(k, { boxes := b, weight_lbs := w })]
  | kv :: rest, k, b, w =>
    if kv.1 = k then
      (kv.1, { boxes := kv.2.boxes + b, weight_lbs := kv.2.weight_lbs + w })
        :: rest
    else kv :: updSpecies rest k b w

/-- Same for the customer dict, also bumping `order_count` by one. -/
def updCustomer : List (String × CustomerTotal) → String → Int → Rat →
    List (String × CustomerTotal)
  | [], k, b, w => [(k, { boxes := b, weight_lbs := w, order_count := 1 })]
  | kv :: rest, k, b, w =>
    if kv.1 = k then
      (kv.1,
        { boxes := kv.2.boxes + b, weight_lbs := kv.2.weight_lbs + w,
          order_count := kv.2.order_count + 1 }) :: rest
    else kv :: updCustomer rest k b w

/-- The four accumulators of the `compute_totals` loop. -/
structure TotalsAcc where
  total_boxes : Int
  total_weight : Rat
  species : List (String × SpeciesTotal)
  customers : List (String × CustomerTotal)
  deriving DecidableEq

/-- One iteration of the inner loop of `compute_totals`.  `line.boxes or 0`
and `line.weight_lbs or 0.0` coincide with `getD 0` on numbers (`None` and
`0` are both falsy and both yield `0`). -/
def lineStep (acc : TotalsAcc) (line : ShipmentLine) : TotalsAcc :=
  let boxes := line.boxes.getD 0
  let weight := line.weight_lbs.getD 0
  { total_boxes := acc.total_boxes + boxes,
    total_weight := acc.total_weight + weight,
    species := updSpecies acc.species line.species boxes weight,
    customers :=
      updCustomer acc.customers (pyOrString line.company line.customer_name)
        boxes weight }

/-- The zeroed accumulators `compute_totals` starts from. -/
def initAcc : TotalsAcc :=
  { total_boxes := 0, total_weight := 0, species := [], customers := [] }

/-- `DailyPayload.compute_totals`: full recomputation of `totals` from the
shipment lines, traversed in shipment-then-line order. -/
def computeTotals (p : DailyPayload) : DailyPayload :=
  let acc :=
    p.shipments.foldl (fun acc s => s.lines.foldl lineStep acc) initAcc
  { p with
      totals :=
        { total_boxes := acc.total_boxes,
          total_weight_lbs := acc.total_weight,
          species_breakdown := acc.species,
          customer_breakdown := acc.customers } }

/-! ### Spec-side definitions

These restate, in the spec's own vocabulary, the quantities the claims talk
about; the theorems below relate them to the source-derived functions. -/

/-- Number of shipments in the list carrying the given AWB. -/
def numShipmentsWith (shipments : List Shipment) (awb : String) : Nat :=
  (shipments.filter (fun s => s.awb == awb)).length

/-- The (lowercased customer name, lowercased species) pair of every line of
every shipment sharing the given AWB. -/
def pairsForAwb (shipments : List Shipment) (awb : String) :
    List (String × String) :=
  doubleCountKeyPairs (shipments.filter (fun s => s.awb == awb))

/-- Some (lowercased customer name, lowercased species) pair occurs more than
once among the lines of all shipments sharing the AWB. -/
def hasRepeatedPair (shipments : List Shipment) (awb : String) : Prop :=
  ∃ p ∈ pairsForAwb shipments awb,
    2 ≤ ((pairsForAwb shipments awb).filter (fun q => q = p)).length

instance (shipments : List Shipment) (awb : String) :
    Decidable (hasRepeatedPair shipments awb) := by
  unfold hasRepeatedPair; infer_instance

/-- The duplicated (non-sentinel) AWBs, in first-occurrence order. -/
def dupAwbKeys (shipments : List Shipment) : List String :=
  (dedupFirst (nonMissingAwbs shipments)).filter
    (fun awb => 1 < (nonMissingAwbs shipments).count awb)

/-- Spec wording: the string consists of exactly 11 digits. -/
def isElevenDigits (s : String) : Bool :=
  s.toList.length = 11 && s.toList.all Char.isDigit

/-- What the anchored pattern accepts: exactly 11 digits, or — a Python `$`
artifact — exactly 11 digits followed by one trailing newline. -/
def okElevenSpec (s : String) : Bool :=
  isElevenDigits s ||
    (s.toList.length = 12 && (s.toList.take 11).all Char.isDigit &&
      s.toList.getLast? = some '\n')

/-- Spec wording of `check_awb_consistency`, per shipment: one ERROR for the
sentinel, else one WARNING unless the pattern accepts the AWB. -/
def awbCheckFor (s : Shipment) : List Anomaly :=
  if s.awb = "MISSING" then [missingAwbAnomaly s]
  else if okElevenSpec s.awb then []
  else [awbMismatchAnomaly s]

/-- Spec wording of `check_weight_outliers`, per line: an anomaly exactly
when the weight is known, the lowercased species is in the range table, and
the weight is strictly outside the range. -/
def lineOutlierSpec (s : Shipment) (l : ShipmentLine) : Option Anomaly :=
  match l.weight_lbs, rangeFor (strLower l.species) with
  | some w, some (mn, mx) =>
    if w < mn ∨ mx < w then some (weightOutlierAnomaly s l w mn mx) else none
  | _, _ => none

/-- Spec wording of `check_weight_outliers` over a whole shipment list. -/
def specOutliers (shipments : List Shipment) : List Anomaly :=
  shipments.flatMap (fun s => s.lines.filterMap (lineOutlierSpec s))

/-- `line.boxes or 0` of the aggregation fold. -/
def lineBoxes (l : ShipmentLine) : Int :=
  l.boxes.getD 0

/-- `line.weight_lbs or 0.0` of the aggregation fold. -/
def lineWeight (l : ShipmentLine) : Rat :=
  l.weight_lbs.getD 0

/-- The customer-breakdown key of a line: `line.company or line.customer_name`. -/
def custKey (l : ShipmentLine) : String :=
  pyOrString l.company l.customer_name

/-- Keys of an association list, in order. -/
def keysOf {β : Type} (m : List (String × β)) : List String :=
  m.map (fun kv => kv.1)

/-- Sum of `boxes` over the species breakdown's values. -/
def sbBoxes (m : List (String × SpeciesTotal)) : Int :=
  (m.map (fun kv => kv.2.boxes)).sum

/-- Sum of `boxes` over the customer breakdown's values. -/
def cbBoxes (m : List (String × CustomerTotal)) : Int :=
  (m.map (fun kv => kv.2.boxes)).sum

/-- Sum of `order_count` over the customer breakdown's values. -/
def cbOrders (m : List (String × CustomerTotal)) : Int :=
  (m.map (fun kv => kv.2.order_count)).sum

/-- `order_count` stored for a key (0 when the key is absent). -/
def ocOf (m : List (String × CustomerTotal)) (k : String) : Int :=
  ((m.find? (fun kv => kv.1 == k)).map (fun kv => kv.2.order_count)).getD 0

/-- All shipment lines of a payload in traversal order. -/
def allLines (p : DailyPayload) : List ShipmentLine :=
  p.shipments.flatMap (fun s => s.lines)

/-! ### Concrete fixtures used in witnesses and counterexamples -/

def msShip : Shipment :=
  { awb := "MISSING", date := "2024-01-01", supplier := "Victor",
    lines := [], source_email_ids := ["m1"] }

def ship123 : Shipment :=
  { awb := "123", date := "2024-01-01", supplier := "Victor",
    lines := [], source_email_ids := ["m2"] }

def shipGood : Shipment :=
  { awb := "12345678901", date := "2024-01-01", supplier := "Victor",
    lines := [], source_email_ids := ["m3"] }

def shipNl : Shipment :=
  { awb := "12345678901\n", date := "2024-01-01", supplier := "Victor",
    lines := [], source_email_ids := ["m4"] }

def lineJoe : ShipmentLine :=
  { customer_name := "Joe", species := "Swordfish", boxes := some 2,
    weight_lbs := some 100 }

def lineSue : ShipmentLine :=
  { customer_name := "Sue", species := "Opah", boxes := some 3,
    weight_lbs := some 90 }

/-- Two shipments sharing an AWB with an identical line pair. -/
def dupErrShips : List Shipment :=
  [{ awb := "12345678901", date := "2024-01-01", supplier := "Victor",
     lines := [lineJoe], source_email_ids := ["e1"] },
   { awb := "12345678901", date := "2024-01-02", supplier := "Victor",
     lines := [lineJoe], source_email_ids := ["e2"] }]

/-- Two shipments sharing an AWB with disjoint line pairs, both sourced from
the same email id. -/
def dupWarnShips : List Shipment :=
  [{ awb := "12345678901", date := "2024-01-01", supplier := "Victor",
     lines := [lineJoe], source_email_ids := ["e1"] },
   { awb := "12345678901", date := "2024-01-02", supplier := "Victor",
     lines := [lineSue], source_email_ids := ["e1"] }]

def sword5000Line : ShipmentLine :=
  { customer_name := "Joe", species := "Swordfish", boxes := some 10,
    weight_lbs := some 5000 }

def sword450Line : ShipmentLine :=
  { customer_name := "Joe", species := "Swordfish", boxes := some 10,
    weight_lbs := some 450 }

def sword5000Ship : Shipment :=
  { awb := "12345678901", date := "2024-01-01", supplier := "Victor",
    lines := [sword5000Line], source_email_ids := ["e9"] }

def sword450Ship : Shipment :=
  { awb := "12345678901", date := "2024-01-01", supplier := "Victor",
    lines := [sword450Line], source_email_ids := ["e9"] }

/-- The five-line payload of the spec's aggregation example. -/
def examplePayload : DailyPayload :=
  { date := "2024-01-01", run_timestamp := "2024-01-01T12:00:00",
    shipments :=
      [{ awb := "12345678901", date := "2024-01-01", supplier := "Victor",
         lines :=
           [{ customer_name := "A", species := "Swordfish", boxes := some 10,
              weight_lbs := some 450 },
            { customer_name := "B", species := "Opah", boxes := some 8,
              weight_lbs := some 360 },
            { customer_name := "C", species := "Salmon", boxes := some 5,
              weight_lbs := some 40 },
            { customer_name := "A", species := "Snapper", boxes := some 6,
              weight_lbs := some 280 },
            { customer_name := "D", species := "Tilefish", boxes := some 4,
              weight_lbs := some 90 }],
         source_email_ids := ["e5"] }] }

/-- A payload whose only line has a present-but-empty `company`. -/
def emptyCompanyPayload : DailyPayload :=
  { date := "2024-01-01", run_timestamp := "2024-01-01T12:00:00",
    shipments :=
      [{ awb := "12345678901", date := "2024-01-01", supplier := "Victor",
         lines :=
           [{ customer_name := "alice", company := some "",
              species := "Swordfish", boxes := some 1,
              weight_lbs := some 50 }],
         source_email_ids := ["e6"] }] }

/-- An email whose text mentions an AWB for which no shipment was
extracted. -/
def strayEmail : EmailDetail :=
  { message_id := "mx1", thread_id := "t1", subject := "Shipment notice",
    body_text := "AWB 123-4567-8901 arriving" }

/-! ### Generic list lemmas -/

theorem foldl_appendStep {α β : Type} (g : α → List β)
    (step : List β → α → List β) (h : ∀ acc x, step acc x = acc ++ g x) :
    ∀ (l : List α) (acc : List β), l.foldl step acc = acc ++ l.flatMap g := by
  intro l
  induction l with
  | nil => intro acc; simp
  | cons a l ih => intro acc; simp [List.foldl_cons, h, ih]

theorem flatMap_ite {α β : Type} (p : α → Bool) (f : α → β) :
    ∀ l : List α,
      l.flatMap (fun x => if p x then [f x] else []) = (l.filter p).map f := by
  intro l
  induction l with
  | nil => rfl
  | cons a l ih =>
    by_cases hp : p a <;> simp [List.filter_cons, hp, ih]

theorem flatMap_toList {α β : Type} (f : α → Option β) :
    ∀ l : List α, l.flatMap (fun x => (f x).toList) = l.filterMap f := by
  intro l
  induction l with
  | nil => rfl
  | cons a l ih => cases hf : f a <;> simp [List.filterMap_cons, hf, ih]

theorem filter_map_comm {α β : Type} (f : α → β) (p : β → Bool) :
    ∀ l : List α, (l.map f).filter p = (l.filter (fun x => p (f x))).map f := by
  intro l
  induction l with
  | nil => rfl
  | cons a l ih => by_cases hp : p (f a) <;> simp [List.filter_cons, hp, ih]

theorem mem_insFirst {α : Type} [DecidableEq α] (acc : List α) (a x : α) :
    x ∈ insFirst acc a ↔ x ∈ acc ∨ x = a := by
  unfold insFirst
  split
  · rename_i ha
    constructor
    · exact Or.inl
    · rintro (hx | rfl)
      · exact hx
      · exact ha
  · simp

theorem nodup_insFirst {α : Type} [DecidableEq α] (acc : List α) (a : α)
    (h : acc.Nodup) : (insFirst acc a).Nodup := by
  unfold insFirst
  split
  · exact h
  · rename_i ha
    simp [List.nodup_append, h, ha]

theorem mem_foldl_insFirst {α : Type} [DecidableEq α] :
    ∀ (l acc : List α) (x : α),
      x ∈ l.foldl insFirst acc ↔ x ∈ acc ∨ x ∈ l := by
  intro l
  induction l with
  | nil => simp
  | cons a l ih =>
    intro acc x
    rw [List.foldl_cons, ih, mem_insFirst]
    simp [or_assoc]

theorem nodup_foldl_insFirst {α : Type} [DecidableEq α] :
    ∀ (l acc : List α), acc.Nodup → (l.foldl insFirst acc).Nodup := by
  intro l
  induction l with
  | nil => intro acc h; exact h
  | cons a l ih => intro acc h; exact ih _ (nodup_insFirst _ _ h)

theorem mem_dedupFirst {α : Type} [DecidableEq α] (l : List α) (x : α) :
    x ∈ dedupFirst l ↔ x ∈ l := by
  unfold dedupFirst
  rw [mem_foldl_insFirst]
  simp

theorem nodup_dedupFirst {α : Type} [DecidableEq α] (l : List α) :
    (dedupFirst l).Nodup :=
  nodup_foldl_insFirst _ _ List.nodup_nil

theorem length_filter_beq_of_nodup {α : Type} [DecidableEq α] :
    ∀ (l : List α), l.Nodup → ∀ (a : α),
      (l.filter (fun x => x == a)).length = if a ∈ l then 1 else 0 := by
  intro l
  induction l with
  | nil => intro _ a; simp
  | cons b l ih =>
    intro hnd a
    rw [List.nodup_cons] at hnd
    by_cases hba : b = a
    · subst hba
      have : l.filter (fun x => x == b) = [] := by
        rw [List.filter_eq_nil_iff]
        intro x hx
        simp only [beq_iff_eq]
        intro hxb
        exact hnd.1 (hxb ▸ hx)
      simp [List.filter_cons, this]
    · rw [List.filter_cons]
      simp only [beq_iff_eq, hba, if_false, ih hnd.2 a]
      have hmem : (a ∈ b :: l) ↔ a ∈ l := by
        constructor
        · intro h
          rcases List.mem_cons.mp h with h1 | h1
          · exact absurd h1.symm hba
          · exact h1
        · intro h
          exact List.mem_cons_of_mem _ h
      simp only [hmem]

/-- Claim C3 (counterexample): with an empty email list but a shipment whose
AWB is the sentinel, `run_all_checks` returns a non-empty anomaly list, so an
empty email list does not make every check return an empty result. -/
theorem runAllChecks_empty_emails_counterexample :
    runAllChecks [] [msShip] ≠ [] ∧ (runAllChecks [] [msShip]).length = 1 := by
  constructor
  · decide
  · decide

/-- Claim C3 (amended): every check returns an empty anomaly list when all of
its list inputs are empty; in particular the shipments-only checks return
`[]` on an empty shipment list, `check_missing_paperwork` returns `[]`
whenever its email list is empty, and `run_all_checks` returns `[]` when
both lists are empty. -/
theorem checks_empty_input :
    checkDoubleCounts [] = [] ∧ checkAwbConsistency [] = [] ∧
      checkWeightOutliers [] = [] ∧
      (∀ shipments : List Shipment, checkMissingPaperwork [] shipments = []) ∧
      runAllChecks [] [] = [] := by
  refine ⟨rfl, rfl, rfl, fun shipments => rfl, rfl⟩

/-- Claim C8: `compute_totals` is a full recomputation from the shipment
list, which it does not modify, so running it twice yields a payload — and
in particular totals — identical to running it once. -/
theorem computeTotals_idempotent (p : DailyPayload) :
    computeTotals (computeTotals p) = computeTotals p ∧
      (computeTotals (computeTotals p)).totals = (computeTotals p).totals := by
  cases p
  exact ⟨rfl, rfl⟩

/-- Claim C4 (counterexample): constructing a `ShipmentLine` with a negative
`boxes` and a negative `weight_lbs` succeeds — the record model declares no
sign constraint — so construction does not fail and the constructed line
carries the negative values. -/
theorem mkShipmentLine_negative_counterexample :
    mkShipmentLine "Alice" none "Swordfish" (some (-3)) (some (-5)) none none
        none =
      Except.ok
        { customer_name := "Alice", company := none, species := "Swordfish",
          boxes := some (-3), weight_lbs := some (-5), size_category := none,
          count_per_box := none, notes := none } ∧
      ((-5 : Rat) < 0 ∧ (-3 : Int) < 0) := by
  exact ⟨rfl, by norm_num, by norm_num⟩

/-- Claim C4 (amended): `ShipmentLine` construction performs no sign
validation: it succeeds on every well-typed input, including negative
`boxes` or `weight_lbs`, and returns a line carrying those field values
verbatim. -/
theorem mkShipmentLine_never_fails (customer_name : String)
    (company : Option String) (species : String) (boxes : Option Int)
    (weight_lbs : Option Rat) (size_category : Option String)
    (count_per_box : Option Int) (notes : Option String) :
    mkShipmentLine customer_name company species boxes weight_lbs
        size_category count_per_box notes =
      Except.ok
        { customer_name := customer_name, company := company,
          species := species, boxes := boxes, weight_lbs := weight_lbs,
          size_category := size_category, count_per_box := count_per_box,
          notes := notes } :=
  rfl

/-! ### Aggregator lemmas -/

theorem nested_foldl_lines (shipments : List Shipment) :
    ∀ acc : TotalsAcc,
      shipments.foldl (fun acc s => s.lines.foldl lineStep acc) acc =
        (shipments.flatMap (fun s => s.lines)).foldl lineStep acc := by
  induction shipments with
  | nil => intro acc; rfl
  | cons s rest ih => intro acc; simp [List.foldl_append, ih]


theorem sbBoxes_cons (kv : String × SpeciesTotal)
    (m : List (String × SpeciesTotal)) :
    sbBoxes (kv :: m) = kv.2.boxes + sbBoxes m := by
  simp [sbBoxes]

theorem cbBoxes_cons (kv : String × CustomerTotal)
    (m : List (String × CustomerTotal)) :
    cbBoxes (kv :: m) = kv.2.boxes + cbBoxes m := by
  simp [cbBoxes]

theorem cbOrders_cons (kv : String × CustomerTotal)
    (m : List (String × CustomerTotal)) :
    cbOrders (kv :: m) = kv.2.order_count + cbOrders m := by
  simp [cbOrders]

theorem keysOf_cons {β : Type} (kv : String × β) (m : List (String × β)) :
    keysOf (kv :: m) = kv.1 :: keysOf m :=
  rfl

theorem updSpecies_sbBoxes :
    ∀ (m : List (String × SpeciesTotal)) (k : String) (b : Int) (w : Rat),
      sbBoxes (updSpecies m k b w) = sbBoxes m + b := by
  intro m
  induction m with
  | nil => intro k b w; simp [updSpecies, sbBoxes]
  | cons kv rest ih =>
    intro k b w
    by_cases h : kv.1 = k
    · simp only [updSpecies, if_pos h, sbBoxes_cons]
      ring
    · simp only [updSpecies, if_neg h, sbBoxes_cons, ih]
      ring

theorem updCustomer_cbBoxes :
    ∀ (m : List (String × CustomerTotal)) (k : String) (b : Int) (w : Rat),
      cbBoxes (updCustomer m k b w) = cbBoxes m + b := by
  intro m
  induction m with
  | nil => intro k b w; simp [updCustomer, cbBoxes]
  | cons kv rest ih =>
    intro k b w
    by_cases h : kv.1 = k
    · simp only [updCustomer, if_pos h, cbBoxes_cons]
      ring
    · simp only [updCustomer, if_neg h, cbBoxes_cons, ih]
      ring

theorem updCustomer_cbOrders :
    ∀ (m : List (String × CustomerTotal)) (k : String) (b : Int) (w : Rat),
      cbOrders (updCustomer m k b w) = cbOrders m + 1 := by
  intro m
  induction m with
  | nil => intro k b w; simp [updCustomer, cbOrders]
  | cons kv rest ih =>
    intro k b w
    by_cases h : kv.1 = k
    · simp only [updCustomer, if_pos h, cbOrders_cons]
      ring
    · simp only [updCustomer, if_neg h, cbOrders_cons, ih]
      ring

theorem updSpecies_keys :
    ∀ (m : List (String × SpeciesTotal)) (k : String) (b : Int) (w : Rat),
      keysOf (updSpecies m k b w) = insFirst (keysOf m) k := by
  intro m
  induction m with
  | nil => intro k b w; simp [updSpecies, keysOf, insFirst]
  | cons kv rest ih =>
    intro k b w
    by_cases h : kv.1 = k
    · simp only [updSpecies, if_pos h, keysOf_cons, insFirst]
      have hmem : k ∈ kv.1 :: keysOf rest :=
        h ▸ List.mem_cons_self kv.1 (keysOf rest)
      rw [if_pos hmem]
    · have hstep :
          keysOf (updSpecies (kv :: rest) k b w) =
            kv.1 :: keysOf (updSpecies rest k b w) := by
        simp [updSpecies, if_neg h, keysOf]
      rw [hstep, ih, keysOf_cons]
      simp only [insFirst]
      by_cases hk : k ∈ keysOf rest
      · have hk2 : k ∈ kv.1 :: keysOf rest := List.mem_cons_of_mem _ hk
        rw [if_pos hk, if_pos hk2]
      · have hk2 : ¬ k ∈ kv.1 :: keysOf rest := by
          intro hmem
          rcases List.mem_cons.mp hmem with h1 | h1
          · exact h h1.symm
          · exact hk h1
        rw [if_neg hk, if_neg hk2]
        rfl

theorem updCustomer_keys :
    ∀ (m : List (String × CustomerTotal)) (k : String) (b : Int) (w : Rat),
      keysOf (updCustomer m k b w) = insFirst (keysOf m) k := by
  intro m
  induction m with
  | nil => intro k b w; simp [updCustomer, keysOf, insFirst]
  | cons kv rest ih =>
    intro k b w
    by_cases h : kv.1 = k
    · simp only [updCustomer, if_pos h, keysOf_cons, insFirst]
      have hmem : k ∈ kv.1 :: keysOf rest :=
        h ▸ List.mem_cons_self kv.1 (keysOf rest)
      rw [if_pos hmem]
    · have hstep :
          keysOf (updCustomer (kv :: rest) k b w) =
            kv.1 :: keysOf (updCustomer rest k b w) := by
        simp [updCustomer, if_neg h, keysOf]
      rw [hstep, ih, keysOf_cons]
      simp only [insFirst]
      by_cases hk : k ∈ keysOf rest
      · have hk2 : k ∈ kv.1 :: keysOf rest := List.mem_cons_of_mem _ hk
        rw [if_pos hk, if_pos hk2]
      · have hk2 : ¬ k ∈ kv.1 :: keysOf rest := by
          intro hmem
          rcases List.mem_cons.mp hmem with h1 | h1
          · exact h h1.symm
          · exact hk h1
        rw [if_neg hk, if_neg hk2]
        rfl

theorem updCustomer_ocOf :
    ∀ (m : List (String × CustomerTotal)) (k : String) (b : Int) (w : Rat)
      (k' : String),
      ocOf (updCustomer m k b w) k' =
        ocOf m k' + (if k' = k then 1 else 0) := by
  intro m
  induction m with
  | nil =>
    intro k b w k'
    by_cases h : k' = k
    · subst h
      simp [updCustomer, ocOf, List.find?]
    · have hb : (k == k') = false := by
        simp
        exact fun he => h he.symm
      simp [updCustomer, ocOf, List.find?, hb, h]
  | cons kv rest ih =>
    intro k b w k'
    by_cases h : kv.1 = k
    · subst h
      by_cases h2 : k' = kv.1
      · subst h2
        unfold updCustomer ocOf
        rw [if_pos rfl]
        rw [List.find?_cons_of_pos _ (by simp), List.find?_cons_of_pos _ (by simp)]
        simp
      · unfold updCustomer ocOf
        rw [if_pos rfl]
        rw [List.find?_cons_of_neg _ (by simp; exact fun he => h2 he.symm),
          List.find?_cons_of_neg _ (by simp; exact fun he => h2 he.symm)]
        simp [h2]
    · have hstep :
          updCustomer (kv :: rest) k b w = kv :: updCustomer rest k b w := by
        simp [updCustomer, h]
      rw [hstep]
      by_cases h2 : kv.1 = k'
      · unfold ocOf
        rw [List.find?_cons_of_pos _ (by simp [h2]),
          List.find?_cons_of_pos _ (by simp [h2])]
        have hkk : ¬ (k' = k) := fun he => h (h2.trans he)
        simp [hkk]
      · unfold ocOf
        rw [List.find?_cons_of_neg _ (by simp [h2]),
          List.find?_cons_of_neg _ (by simp [h2])]
        exact ih k b w k'

theorem fold_total_boxes :
    ∀ (lines : List ShipmentLine) (acc : TotalsAcc),
      (lines.foldl lineStep acc).total_boxes =
        acc.total_boxes + (lines.map lineBoxes).sum := by
  intro lines
  induction lines with
  | nil => intro acc; simp
  | cons l ls ih =>
    intro acc
    rw [List.foldl_cons, ih]
    simp [lineStep, lineBoxes]
    ring

theorem fold_total_weight :
    ∀ (lines : List ShipmentLine) (acc : TotalsAcc),
      (lines.foldl lineStep acc).total_weight =
        acc.total_weight + (lines.map lineWeight).sum := by
  intro lines
  induction lines with
  | nil => intro acc; simp
  | cons l ls ih =>
    intro acc
    rw [List.foldl_cons, ih]
    simp [lineStep, lineWeight]
    ring

theorem fold_sbBoxes :
    ∀ (lines : List ShipmentLine) (acc : TotalsAcc),
      sbBoxes (lines.foldl lineStep acc).species =
        sbBoxes acc.species + (lines.map lineBoxes).sum := by
  intro lines
  induction lines with
  | nil => intro acc; simp
  | cons l ls ih =>
    intro acc
    rw [List.foldl_cons, ih]
    have hstep : (lineStep acc l).species =
        updSpecies acc.species l.species (l.boxes.getD 0)
          (l.weight_lbs.getD 0) := rfl
    rw [hstep, updSpecies_sbBoxes]
    simp [lineBoxes]
    ring

theorem fold_cbBoxes :
    ∀ (lines : List ShipmentLine) (acc : TotalsAcc),
      cbBoxes (lines.foldl lineStep acc).customers =
        cbBoxes acc.customers + (lines.map lineBoxes).sum := by
  intro lines
  induction lines with
  | nil => intro acc; simp
  | cons l ls ih =>
    intro acc
    rw [List.foldl_cons, ih]
    have hstep : (lineStep acc l).customers =
        updCustomer acc.customers (custKey l) (l.boxes.getD 0)
          (l.weight_lbs.getD 0) := rfl
    rw [hstep, updCustomer_cbBoxes]
    simp [lineBoxes]
    ring

theorem fold_cbOrders :
    ∀ (lines : List ShipmentLine) (acc : TotalsAcc),
      cbOrders (lines.foldl lineStep acc).customers =
        cbOrders acc.customers + (lines.length : Int) := by
  intro lines
  induction lines with
  | nil => intro acc; simp
  | cons l ls ih =>
    intro acc
    rw [List.foldl_cons, ih]
    have hstep : (lineStep acc l).customers =
        updCustomer acc.customers (custKey l) (l.boxes.getD 0)
          (l.weight_lbs.getD 0) := rfl
    rw [hstep, updCustomer_cbOrders]
    simp [List.length_cons]
    ring

theorem fold_species_keys :
    ∀ (lines : List ShipmentLine) (acc : TotalsAcc),
      keysOf (lines.foldl lineStep acc).species =
        (lines.map (fun l => l.species)).foldl insFirst
          (keysOf acc.species) := by
  intro lines
  induction lines with
  | nil => intro acc; rfl
  | cons l ls ih =>
    intro acc
    rw [List.foldl_cons, ih, List.map_cons, List.foldl_cons]
    congr 1
    exact updSpecies_keys acc.species l.species _ _

theorem fold_customer_keys :
    ∀ (lines : List ShipmentLine) (acc : TotalsAcc),
      keysOf (lines.foldl lineStep acc).customers =
        (lines.map custKey).foldl insFirst (keysOf acc.customers) := by
  intro lines
  induction lines with
  | nil => intro acc; rfl
  | cons l ls ih =>
    intro acc
    rw [List.foldl_cons, ih, List.map_cons, List.foldl_cons]
    congr 1
    exact updCustomer_keys acc.customers (custKey l) _ _

theorem fold_ocOf :
    ∀ (lines : List ShipmentLine) (acc : TotalsAcc) (k : String),
      ocOf (lines.foldl lineStep acc).customers k =
        ocOf acc.customers k +
          ((lines.filter (fun l => custKey l == k)).length : Int) := by
  intro lines
  induction lines with
  | nil => intro acc k; simp
  | cons l ls ih =>
    intro acc k
    rw [List.foldl_cons, ih]
    have hstep : (lineStep acc l).customers =
        updCustomer acc.customers (custKey l) (l.boxes.getD 0)
          (l.weight_lbs.getD 0) := rfl
    rw [hstep, updCustomer_ocOf]
    by_cases h : custKey l = k
    · rw [List.filter_cons,
        if_pos (show (custKey l == k) = true by simp [h]),
        List.length_cons, if_pos h.symm]
      push_cast
      ring
    · have hb : (custKey l == k) = false := by simp [h]
      have hkk : ¬ (k = custKey l) := fun he => h he.symm
      rw [List.filter_cons]
      simp only [hb, Bool.false_eq_true, if_false, if_neg hkk]
      ring

/-- The computed totals, expressed through the flattened line list. -/
theorem computeTotals_totals (p : DailyPayload) :
    (computeTotals p).totals =
      { total_boxes := ((allLines p).foldl lineStep initAcc).total_boxes,
        total_weight_lbs :=
          ((allLines p).foldl lineStep initAcc).total_weight,
        species_breakdown := ((allLines p).foldl lineStep initAcc).species,
        customer_breakdown :=
          ((allLines p).foldl lineStep initAcc).customers } := by
  simp [computeTotals, allLines, nested_foldl_lines, initAcc]

/-- Claim C2 (counterexample): on a payload whose single line has
`company = some ""` (present but empty), the customer breakdown is keyed by
the customer name `"alice"`, not by the present company value `""` — Python's
`line.company or line.customer_name` treats the empty string as absent. -/
theorem computeTotals_company_counterexample :
    keysOf (computeTotals emptyCompanyPayload).totals.customer_breakdown =
        ["alice"] ∧
      (allLines emptyCompanyPayload).map (fun l => l.company) = [some ""] ∧
      "alice" ≠ "" := by
  refine ⟨by decide, by decide, by decide⟩

/-- Claim C2 (amended): `compute_totals` folds over each shipment's lines in
input order with an absent `boxes` or `weight_lbs` counting as zero:
`total_boxes` and `total_weight_lbs` are the sums over all lines,
`species_breakdown` is keyed by the line's species string verbatim, and
`customer_breakdown` is keyed by `company` when present *and non-empty*,
else by customer name, with `order_count` incremented once per line; on the
five example lines it yields `total_boxes = 33` and
`total_weight_lbs = 1220.0`. -/
theorem computeTotals_spec (p : DailyPayload) :
    (computeTotals p).totals.total_boxes = ((allLines p).map lineBoxes).sum ∧
      (computeTotals p).totals.total_weight_lbs =
        ((allLines p).map lineWeight).sum ∧
      keysOf (computeTotals p).totals.species_breakdown =
        dedupFirst ((allLines p).map (fun l => l.species)) ∧
      keysOf (computeTotals p).totals.customer_breakdown =
        dedupFirst ((allLines p).map custKey) ∧
      (∀ k : String,
        ocOf (computeTotals p).totals.customer_breakdown k =
          (((allLines p).filter (fun l => custKey l == k)).length : Int)) ∧
      (computeTotals examplePayload).totals.total_boxes = 33 ∧
      (computeTotals examplePayload).totals.total_weight_lbs = 1220 := by
  refine ⟨?_, ?_, ?_, ?_, ?_, by decide, ?_⟩
  · rw [computeTotals_totals]
    show ((allLines p).foldl lineStep initAcc).total_boxes = _
    rw [fold_total_boxes]
    simp [initAcc]
  · rw [computeTotals_totals]
    show ((allLines p).foldl lineStep initAcc).total_weight = _
    rw [fold_total_weight]
    simp [initAcc]
  · rw [computeTotals_totals]
    show keysOf ((allLines p).foldl lineStep initAcc).species = _
    rw [fold_species_keys]
    simp [initAcc, keysOf, dedupFirst]
  · rw [computeTotals_totals]
    show keysOf ((allLines p).foldl lineStep initAcc).customers = _
    rw [fold_customer_keys]
    simp [initAcc, keysOf, dedupFirst]
  · intro k
    rw [computeTotals_totals]
    show ocOf ((allLines p).foldl lineStep initAcc).customers k = _
    rw [fold_ocOf]
    simp [initAcc, ocOf]
  · rw [computeTotals_totals]
    show ((allLines examplePayload).foldl lineStep initAcc).total_weight = _
    rw [fold_total_weight]
    norm_num [initAcc, allLines, examplePayload, lineWeight]

theorem computeTotals_consistent (p : DailyPayload) :
    (computeTotals p).totals.total_boxes =
        sbBoxes (computeTotals p).totals.species_breakdown ∧
      (computeTotals p).totals.total_boxes =
        cbBoxes (computeTotals p).totals.customer_breakdown ∧
      cbOrders (computeTotals p).totals.customer_breakdown =
        ((allLines p).length : Int) := by
  refine ⟨?_, ?_, ?_⟩
  · rw [computeTotals_totals]
    show ((allLines p).foldl lineStep initAcc).total_boxes =
      sbBoxes ((allLines p).foldl lineStep initAcc).species
    rw [fold_total_boxes, fold_sbBoxes]
    simp [initAcc, sbBoxes]
  · rw [computeTotals_totals]
    show ((allLines p).foldl lineStep initAcc).total_boxes =
      cbBoxes ((allLines p).foldl lineStep initAcc).customers
    rw [fold_total_boxes, fold_cbBoxes]
    simp [initAcc, cbBoxes]
  · rw [computeTotals_totals]
    show cbOrders ((allLines p).foldl lineStep initAcc).customers = _
    rw [fold_cbOrders]
    simp [initAcc, cbOrders]

/-! ### Double-count lemmas -/

theorem flatMap_ite_prop {α β : Type} (p : α → Prop) [DecidablePred p]
    (f : α → β) :
    ∀ l : List α,
      l.flatMap (fun x => if p x then [] else [f x]) =
        (l.filter (fun x => decide (¬ p x))).map f := by
  intro l
  induction l with
  | nil => rfl
  | cons a l ih =>
    by_cases hp : p a <;> simp [List.filter_cons, hp, ih]

theorem ne_nil_iff_exists_mem {α : Type} (L : List α) :
    L ≠ [] ↔ ∃ x, x ∈ L := by
  cases L with
  | nil => simp
  | cons a t =>
    exact ⟨fun _ => ⟨a, List.mem_cons_self a t⟩, fun _ => List.cons_ne_nil a t⟩

theorem checkDoubleCounts_eq_map (shipments : List Shipment) :
    checkDoubleCounts shipments =
      (dupAwbKeys shipments).map
        (fun awb => doubleCountAnomaly shipments awb
          ((nonMissingAwbs shipments).count awb)) := by
  unfold checkDoubleCounts
  rw [foldl_appendStep
    (fun kv => if kv.2 ≤ 1 then []
      else [doubleCountAnomaly shipments kv.1 kv.2])
    _ (by
      intro acc kv
      dsimp only
      split <;> simp)]
  rw [List.nil_append,
    flatMap_ite_prop (fun kv : String × Nat => kv.2 ≤ 1)
      (fun kv => doubleCountAnomaly shipments kv.1 kv.2)]
  unfold counterItems
  rw [filter_map_comm, List.map_map]
  have hfil :
      (dedupFirst (nonMissingAwbs shipments)).filter
          (fun x =>
            decide (¬ ((nonMissingAwbs shipments).count x ≤ 1))) =
        dupAwbKeys shipments := by
    unfold dupAwbKeys
    apply List.filter_congr
    intro a _
    simp [Nat.not_le]
  rw [hfil]
  rfl

theorem doubleCountAnomaly_type (shipments : List Shipment) (awb : String)
    (count : Nat) :
    (doubleCountAnomaly shipments awb count).anomaly_type =
      AnomalyType.DOUBLE_COUNT := by
  simp only [doubleCountAnomaly]
  split <;> rfl

theorem doubleCountAnomaly_related_awb (shipments : List Shipment)
    (awb : String) (count : Nat) :
    (doubleCountAnomaly shipments awb count).related_awb = some awb := by
  simp only [doubleCountAnomaly]
  split <;> rfl

theorem doubleCountAnomaly_related_emails (shipments : List Shipment)
    (awb : String) (count : Nat) :
    (doubleCountAnomaly shipments awb count).related_emails =
      (shipments.filter (fun s => s.awb == awb)).flatMap
        (fun s => s.source_email_ids) := by
  simp only [doubleCountAnomaly]
  split <;> rfl

theorem count_eq_filter_length {α : Type} [DecidableEq α] :
    ∀ (l : List α) (a : α),
      l.count a = (l.filter (fun x => x = a)).length := by
  intro l a
  induction l with
  | nil => rfl
  | cons b t ih =>
    by_cases h : b = a <;> simp [List.count_cons, List.filter_cons, h, ih]

theorem counter_dup_ne_nil_iff {α : Type} [DecidableEq α] (l : List α) :
    ((counterItems l).filter (fun kv => 1 < kv.2) ≠ []) ↔
      ∃ x ∈ l, 2 ≤ (l.filter (fun y => y = x)).length := by
  unfold counterItems
  rw [filter_map_comm, ne_nil_iff_exists_mem]
  constructor
  · rintro ⟨y, hy⟩
    rcases List.mem_map.mp hy with ⟨x, hx, rfl⟩
    rw [List.mem_filter] at hx
    have hq := hx.2
    simp only [decide_eq_true_eq] at hq
    rw [count_eq_filter_length] at hq
    exact ⟨x, (mem_dedupFirst l x).mp hx.1, hq⟩
  · rintro ⟨x, hxl, hc⟩
    refine ⟨(x, l.count x), List.mem_map.mpr ⟨x, ?_, rfl⟩⟩
    rw [List.mem_filter]
    refine ⟨(mem_dedupFirst l x).mpr hxl, ?_⟩
    simp only [decide_eq_true_eq]
    rw [count_eq_filter_length]
    omega

theorem hasRepeatedPair_iff (shipments : List Shipment) (awb : String) :
    hasRepeatedPair shipments awb ↔
      ∃ x ∈ pairsForAwb shipments awb,
        2 ≤ ((pairsForAwb shipments awb).filter (fun y => y = x)).length :=
  Iff.rfl

theorem doubleCountAnomaly_severity_error (shipments : List Shipment)
    (awb : String) (count : Nat) :
    ((doubleCountAnomaly shipments awb count).severity = Severity.ERROR ↔
      hasRepeatedPair shipments awb) := by
  have hiff := (counter_dup_ne_nil_iff (pairsForAwb shipments awb)).trans
    (hasRepeatedPair_iff shipments awb).symm
  simp only [doubleCountAnomaly]
  split
  · rename_i hnil
    show Severity.WARNING = Severity.ERROR ↔ hasRepeatedPair shipments awb
    constructor
    · intro h
      exact absurd h (by decide)
    · intro h
      exact absurd hnil (hiff.mpr h)
  · rename_i hnil
    show Severity.ERROR = Severity.ERROR ↔ hasRepeatedPair shipments awb
    constructor
    · intro _
      exact hiff.mp hnil
    · intro _
      rfl

theorem doubleCountAnomaly_severity_warning (shipments : List Shipment)
    (awb : String) (count : Nat) :
    ((doubleCountAnomaly shipments awb count).severity = Severity.WARNING ↔
      ¬ hasRepeatedPair shipments awb) := by
  have herr := doubleCountAnomaly_severity_error shipments awb count
  cases hs : (doubleCountAnomaly shipments awb count).severity with
  | WARNING =>
    rw [hs] at herr
    constructor
    · intro _ hrep
      exact absurd (herr.mpr hrep) (by decide)
    · intro _
      rfl
  | ERROR =>
    rw [hs] at herr
    have hrep : hasRepeatedPair shipments awb := herr.mp rfl
    constructor
    · intro h
      exact absurd h (by decide)
    · intro hn
      exact absurd hrep hn

theorem count_nonMissingAwbs (shipments : List Shipment) (awb : String)
    (h : awb ≠ "MISSING") :
    (nonMissingAwbs shipments).count awb = numShipmentsWith shipments awb := by
  unfold nonMissingAwbs numShipmentsWith
  induction shipments with
  | nil => rfl
  | cons s rest ih =>
    by_cases h1 : s.awb = "MISSING"
    · have h2 : (s.awb == awb) = false := by
        simp only [beq_eq_false_iff_ne, Ne]
        intro he
        exact h (he.symm.trans h1)
      have h3 : (s.awb != "MISSING") = false := by
        simp [h1]
      rw [List.filter_cons, List.filter_cons]
      simp only [h2, h3, Bool.false_eq_true, if_false]
      exact ih
    · have h3 : (s.awb != "MISSING") = true := by
        simp [h1]
      rw [List.filter_cons, List.filter_cons]
      simp only [h3, if_true]
      by_cases h2 : s.awb = awb
      · have hb : (s.awb == awb) = true := by simp [h2]
        rw [List.map_cons, List.count_cons]
        simp only [hb, if_true, List.length_cons]
        rw [ih]
      · have hb : (s.awb == awb) = false := by simp [h2]
        rw [List.map_cons, List.count_cons]
        simp only [hb, Bool.false_eq_true, if_false, beq_iff_eq, h2]
        rw [ih]
        simp

theorem mem_dupAwbKeys (shipments : List Shipment) (awb : String) :
    awb ∈ dupAwbKeys shipments ↔
      awb ≠ "MISSING" ∧ 2 ≤ numShipmentsWith shipments awb := by
  unfold dupAwbKeys
  rw [List.mem_filter, mem_dedupFirst]
  constructor
  · rintro ⟨hmem, hcount⟩
    have hne : awb ≠ "MISSING" := by
      unfold nonMissingAwbs at hmem
      rcases List.mem_map.mp hmem with ⟨s, hs, rfl⟩
      have h2 := (List.mem_filter.mp hs).2
      simpa using h2
    refine ⟨hne, ?_⟩
    rw [← count_nonMissingAwbs shipments awb hne]
    simpa using hcount
  · rintro ⟨hne, hcount⟩
    have hc := count_nonMissingAwbs shipments awb hne
    constructor
    · have hpos : 0 < (nonMissingAwbs shipments).count awb := by omega
      exact List.count_pos_iff.mp hpos
    · simp only [decide_eq_true_eq]
      omega

theorem nodup_dupAwbKeys (shipments : List Shipment) :
    (dupAwbKeys shipments).Nodup := by
  unfold dupAwbKeys
  exact List.Nodup.filter _ (nodup_dedupFirst _)

/-- Claim C1: for every shipment list, `check_double_counts` emits anomalies
only of type DOUBLE_COUNT, each tagged with a non-sentinel AWB occurring in
at least two shipments; per such AWB exactly one anomaly is emitted (and
none for AWBs occurring at most once, so a list with no repeated AWB yields
`[]`); the severity is ERROR exactly when some (lowercased customer,
lowercased species) pair repeats among the lines of the shipments sharing
that AWB, and WARNING otherwise. -/
theorem checkDoubleCounts_spec (shipments : List Shipment) :
    (∀ a ∈ checkDoubleCounts shipments,
        a.anomaly_type = AnomalyType.DOUBLE_COUNT ∧
          ∃ awb, a.related_awb = some awb ∧ awb ≠ "MISSING" ∧
            2 ≤ numShipmentsWith shipments awb ∧
            (a.severity = Severity.ERROR ↔ hasRepeatedPair shipments awb) ∧
            (a.severity = Severity.WARNING ↔
              ¬ hasRepeatedPair shipments awb)) ∧
      (∀ awb : String, awb ≠ "MISSING" →
        ((checkDoubleCounts shipments).filter
            (fun a => a.related_awb == some awb)).length =
          if 2 ≤ numShipmentsWith shipments awb then 1 else 0) ∧
      ((∀ awb : String, awb ≠ "MISSING" →
          numShipmentsWith shipments awb ≤ 1) →
        checkDoubleCounts shipments = []) := by
  refine ⟨?_, ?_, ?_⟩
  · intro a ha
    rw [checkDoubleCounts_eq_map] at ha
    rcases List.mem_map.mp ha with ⟨x, hx, rfl⟩
    rcases (mem_dupAwbKeys shipments x).mp hx with ⟨hne, hcnt⟩
    exact ⟨doubleCountAnomaly_type _ _ _,
      x, doubleCountAnomaly_related_awb _ _ _, hne, hcnt,
      doubleCountAnomaly_severity_error _ _ _,
      doubleCountAnomaly_severity_warning _ _ _⟩
  · intro awb hne
    rw [checkDoubleCounts_eq_map, filter_map_comm, List.length_map]
    have hpred : ∀ x ∈ dupAwbKeys shipments,
        ((doubleCountAnomaly shipments x
            ((nonMissingAwbs shipments).count x)).related_awb ==
          some awb) = (x == awb) := by
      intro x _
      rw [doubleCountAnomaly_related_awb]
      rfl
    rw [List.filter_congr hpred,
      length_filter_beq_of_nodup (dupAwbKeys shipments)
        (nodup_dupAwbKeys shipments) awb]
    by_cases hc : 2 ≤ numShipmentsWith shipments awb
    · rw [if_pos ((mem_dupAwbKeys shipments awb).mpr ⟨hne, hc⟩), if_pos hc]
    · rw [if_neg, if_neg hc]
      intro hmem
      exact hc ((mem_dupAwbKeys shipments awb).mp hmem).2
  · intro hall
    rw [checkDoubleCounts_eq_map]
    have hnil : dupAwbKeys shipments = [] := by
      rw [List.eq_nil_iff_forall_not_mem]
      intro x hx
      rcases (mem_dupAwbKeys shipments x).mp hx with ⟨hne, hcnt⟩
      have := hall x hne
      omega
    rw [hnil]
    rfl

/-- Witness for claim C1: on two shipments sharing AWB "12345678901" there
is exactly one DOUBLE_COUNT anomaly tagged with that AWB. -/
theorem checkDoubleCounts_spec_witness :
    ((checkDoubleCounts dupErrShips).filter
        (fun a => a.related_awb == some "12345678901")).length =
      if 2 ≤ numShipmentsWith dupErrShips "12345678901" then 1 else 0 :=
  (checkDoubleCounts_spec dupErrShips).2.1 "12345678901" (by decide)

/-- Claim C6 (counterexample): when the two duplicate shipments both carry
source email id "e1", the single DOUBLE_COUNT anomaly's `related_emails` is
`["e1", "e1"]` — the id appears twice, so the field is not a
duplicate-free union. -/
theorem doubleCount_related_emails_counterexample :
    (checkDoubleCounts dupWarnShips).map (fun a => a.related_emails) =
        [["e1", "e1"]] ∧
      List.count "e1" ["e1", "e1"] = 2 := by
  exact ⟨by decide, by decide⟩

/-- Claim C6 (amended): for every duplicated AWB, the DOUBLE_COUNT anomaly's
`related_emails` is the concatenation, in shipment order, of the source
email ids of all shipments sharing that AWB, duplicates preserved. -/
theorem doubleCount_related_emails (shipments : List Shipment) (a : Anomaly)
    (awb : String) (ha : a ∈ checkDoubleCounts shipments)
    (hawb : a.related_awb = some awb) :
    a.related_emails =
      (shipments.filter (fun s => s.awb == awb)).flatMap
        (fun s => s.source_email_ids) := by
  rw [checkDoubleCounts_eq_map] at ha
  rcases List.mem_map.mp ha with ⟨x, hx, rfl⟩
  rw [doubleCountAnomaly_related_awb] at hawb
  have hx2 := Option.some.inj hawb
  subst hx2
  exact doubleCountAnomaly_related_emails _ _ _

/-- Witness for claim C6 at a concrete duplicated AWB. -/
theorem doubleCount_related_emails_witness :
    (doubleCountAnomaly dupErrShips "12345678901" 2).related_emails =
      (dupErrShips.filter (fun s => s.awb == "12345678901")).flatMap
        (fun s => s.source_email_ids) :=
  doubleCount_related_emails dupErrShips
    (doubleCountAnomaly dupErrShips "12345678901" 2) "12345678901"
    (by decide) (by decide)

/-! ### Weight-outlier lemmas -/

theorem weightStep_eq (s : Shipment) (acc : List Anomaly)
    (l : ShipmentLine) :
    (match l.weight_lbs with
      | none => acc
      | some w =>
        match rangeFor (strLower l.species) with
        | none => acc
        | some (mn, mx) =>
          if w < mn ∨ mx < w then acc ++ [weightOutlierAnomaly s l w mn mx]
          else acc) = acc ++ (lineOutlierSpec s l).toList := by
  unfold lineOutlierSpec
  cases hw : l.weight_lbs with
  | none => simp
  | some w =>
    cases hr : rangeFor (strLower l.species) with
    | none => simp
    | some mm =>
      obtain ⟨mn, mx⟩ := mm
      dsimp only
      by_cases hc : w < mn ∨ mx < w
      · rw [if_pos hc, if_pos hc]
        rfl
      · rw [if_neg hc, if_neg hc]
        simp

theorem checkWeightOutliers_inner (s : Shipment) (acc : List Anomaly) :
    s.lines.foldl
        (fun anomalies l =>
          match l.weight_lbs with
          | none => anomalies
          | some w =>
            match rangeFor (strLower l.species) with
            | none => anomalies
            | some (mn, mx) =>
              if w < mn ∨ mx < w then
                anomalies ++ [weightOutlierAnomaly s l w mn mx]
              else anomalies) acc =
      acc ++ s.lines.filterMap (lineOutlierSpec s) := by
  rw [foldl_appendStep (fun l => (lineOutlierSpec s l).toList) _
    (fun acc2 l => weightStep_eq s acc2 l), flatMap_toList]

/-- Claim C7: `check_weight_outliers` emits, per line, exactly one
WEIGHT_OUTLIER / WARNING anomaly when the line has a known weight, its
lowercased species is in the fixed range table, and the weight is strictly
outside [min, max]; all other lines produce nothing.  A Swordfish line at
5000 lbs yields exactly one anomaly; one at 450 lbs yields none. -/
theorem checkWeightOutliers_spec (shipments : List Shipment) :
    checkWeightOutliers shipments = specOutliers shipments ∧
      checkWeightOutliers [sword5000Ship] =
        [weightOutlierAnomaly sword5000Ship sword5000Line 5000 40 500] ∧
      (weightOutlierAnomaly sword5000Ship sword5000Line 5000 40
          500).anomaly_type = AnomalyType.WEIGHT_OUTLIER ∧
      (weightOutlierAnomaly sword5000Ship sword5000Line 5000 40
          500).severity = Severity.WARNING ∧
      checkWeightOutliers [sword450Ship] = [] := by
  refine ⟨?_, by decide, rfl, rfl, by decide⟩
  unfold checkWeightOutliers specOutliers
  rw [foldl_appendStep (fun s => s.lines.filterMap (lineOutlierSpec s)) _
    (fun acc s => checkWeightOutliers_inner s acc), List.nil_append]

/-! ### AWB-consistency lemmas -/

theorem takeDigits_some :
    ∀ {n : Nat} {l d r : List Char}, takeDigits n l = some (d, r) →
      d.length = n ∧ (∀ c ∈ d, c.isDigit = true) ∧ l = d ++ r := by
  intro n
  induction n with
  | zero =>
    intro l d r h
    simp only [takeDigits] at h
    injection h with h'
    injection h' with h1 h2
    subst h1
    subst h2
    exact ⟨rfl, by simp, rfl⟩
  | succ n ih =>
    intro l d r h
    cases l with
    | nil => exact Option.noConfusion h
    | cons c cs =>
      simp only [takeDigits] at h
      by_cases hd : c.isDigit
      · rw [if_pos hd] at h
        cases htd : takeDigits n cs with
        | none =>
          rw [htd] at h
          exact Option.noConfusion h
        | some dr =>
          rw [htd] at h
          obtain ⟨d', r'⟩ := dr
          simp only [Option.map] at h
          injection h with h'
          injection h' with h1 h2
          subst h1
          subst h2
          obtain ⟨hl, hdig, he⟩ := ih htd
          refine ⟨by simp [hl], ?_, by simp [he]⟩
          intro x hx
          rcases List.mem_cons.mp hx with hx1 | hx2
          · subst hx1
            exact hd
          · exact hdig x hx2
      · rw [if_neg hd] at h
        exact Option.noConfusion h

theorem takeDigits_of :
    ∀ {n : Nat} {d r : List Char}, d.length = n →
      (∀ c ∈ d, c.isDigit = true) →
      takeDigits n (d ++ r) = some (d, r) := by
  intro n
  induction n with
  | zero =>
    intro d r hl _
    rw [List.length_eq_zero] at hl
    subst hl
    rfl
  | succ n ih =>
    intro d r hl hdig
    cases d with
    | nil => simp at hl
    | cons c d' =>
      have hd : c.isDigit = true := hdig c (List.mem_cons_self c d')
      have hl' : d'.length = n := by simpa using hl
      have hdig' : ∀ x ∈ d', x.isDigit = true :=
        fun x hx => hdig x (List.mem_cons_of_mem c hx)
      have hih := ih (r := r) hl' hdig'
      simp only [List.cons_append, takeDigits, if_pos hd]
      exact show Option.map (fun dr => (c :: dr.1, dr.2))
          (takeDigits n (d' ++ r)) = some (c :: d', r) by
        rw [hih]
        rfl

theorem matchesCleanPattern_eq_okElevenSpec (s : String) :
    matchesCleanPattern s = okElevenSpec s := by
  rw [Bool.eq_iff_iff]
  unfold matchesCleanPattern okElevenSpec isElevenDigits
  constructor
  · intro h
    cases htd : takeDigits 11 s.toList with
    | none =>
      rw [htd] at h
      exact absurd h (by simp)
    | some dr =>
      rw [htd] at h
      simp only [decide_eq_true_eq] at h
      obtain ⟨hl, hdig, he⟩ := takeDigits_some htd
      rcases h with h1 | h1
      · have hslist : s.toList = dr.1 := by rw [he, h1, List.append_nil]
        rw [Bool.or_eq_true]
        left
        rw [Bool.and_eq_true]
        constructor
        · have hlen : s.toList.length = 11 := by
            rw [hslist]
            exact hl
          simpa using hlen
        · have hdig2 : ∀ x ∈ s.toList, x.isDigit = true :=
            fun x hx => hdig x (hslist ▸ hx)
          simpa [List.all_eq_true] using hdig2
      · rw [Bool.or_eq_true]
        right
        rw [Bool.and_eq_true, Bool.and_eq_true]
        refine ⟨⟨?_, ?_⟩, ?_⟩
        · have hlen : s.toList.length = 12 := by
            rw [he, h1, List.length_append, hl]
            rfl
          simpa using hlen
        · have htake : s.toList.take 11 = dr.1 := by
            rw [he, h1, ← hl]
            exact List.take_left dr.1 ['\n']
          have hdig2 : ∀ x ∈ s.toList.take 11, x.isDigit = true := by
            rw [htake]
            exact hdig
          simpa [List.all_eq_true] using hdig2
        · have hgl2 : s.toList.getLast? = some '\n' := by
            rw [he, h1, List.getLast?_concat]
          simpa using hgl2
  · intro h
    rw [Bool.or_eq_true] at h
    rcases h with h1 | h1
    · rw [Bool.and_eq_true] at h1
      obtain ⟨hlen, hall⟩ := h1
      simp only [decide_eq_true_eq] at hlen
      have hdig : ∀ c ∈ s.toList, c.isDigit = true :=
        List.all_eq_true.mp hall
      have h2 : takeDigits 11 s.toList = some (s.toList, []) := by
        conv_lhs => rw [show s.toList = s.toList ++ [] by simp]
        exact takeDigits_of hlen hdig
      rw [h2]
      simp
    · rw [Bool.and_eq_true, Bool.and_eq_true] at h1
      obtain ⟨⟨hlen, htake⟩, hlast⟩ := h1
      simp only [decide_eq_true_eq] at hlen hlast
      have hsplit : s.toList = s.toList.take 11 ++ s.toList.drop 11 :=
        (List.take_append_drop 11 s.toList).symm
      have hlen_take : (s.toList.take 11).length = 11 := by
        rw [List.length_take]
        omega
      have hlen_drop : (s.toList.drop 11).length = 1 := by
        rw [List.length_drop]
        omega
      obtain ⟨x, hx⟩ := List.length_eq_one.mp hlen_drop
      have hgl := hlast
      rw [hsplit, hx, List.getLast?_concat] at hgl
      have hxn : x = '\n' := Option.some.inj hgl
      subst hxn
      have hdig : ∀ c ∈ s.toList.take 11, c.isDigit = true :=
        List.all_eq_true.mp htake
      have h2 : takeDigits 11 s.toList = some (s.toList.take 11, ['\n']) := by
        conv_lhs => rw [hsplit, hx]
        exact takeDigits_of hlen_take hdig
      rw [h2]
      simp

theorem checkAwbConsistency_step (acc : List Anomaly) (s : Shipment) :
    (if s.awb = "MISSING" then acc ++ [missingAwbAnomaly s]
      else if matchesCleanPattern s.awb then acc
      else acc ++ [awbMismatchAnomaly s]) = acc ++ awbCheckFor s := by
  unfold awbCheckFor
  by_cases h1 : s.awb = "MISSING"
  · rw [if_pos h1, if_pos h1]
  · rw [if_neg h1, if_neg h1]
    by_cases h2 : matchesCleanPattern s.awb
    · have h2' : okElevenSpec s.awb = true := by
        rw [← matchesCleanPattern_eq_okElevenSpec]
        exact h2
      rw [if_pos h2, if_pos h2', List.append_nil]
    · have h2' : ¬ (okElevenSpec s.awb = true) := by
        rw [← matchesCleanPattern_eq_okElevenSpec]
        exact h2
      rw [if_neg h2, if_neg h2']

theorem checkAwbConsistency_eq (shipments : List Shipment) :
    checkAwbConsistency shipments = shipments.flatMap awbCheckFor := by
  unfold checkAwbConsistency
  rw [foldl_appendStep awbCheckFor _
    (fun acc s => checkAwbConsistency_step acc s), List.nil_append]

/-- Claim C5 (counterexample): the AWB "12345678901\n" is neither the
sentinel nor exactly 11 digits, yet `check_awb_consistency` emits no anomaly
for it — Python's `$` anchor also matches just before a trailing newline, so
`^ \d x11 $` accepts the string. -/
theorem checkAwbConsistency_newline_counterexample :
    checkAwbConsistency [shipNl] = [] ∧ shipNl.awb ≠ "MISSING" ∧
      isElevenDigits shipNl.awb = false := by
  refine ⟨by decide, by decide, by decide⟩

/-- Claim C5 (amended): per shipment, `check_awb_consistency` emits exactly
one MISSING_AWB / ERROR anomaly if the AWB equals "MISSING"; otherwise
exactly one AWB_MISMATCH / WARNING anomaly unless the AWB is exactly 11
digits or — an artifact of the anchored `$` — exactly 11 digits followed by
one trailing newline; otherwise nothing.  Every shipment contributes at most
one anomaly, and an 11-digit AWB contributes none. -/
theorem checkAwbConsistency_spec (shipments : List Shipment) :
    checkAwbConsistency shipments = shipments.flatMap awbCheckFor ∧
      (∀ s : Shipment, (awbCheckFor s).length ≤ 1) ∧
      checkAwbConsistency [msShip] = [missingAwbAnomaly msShip] ∧
      (missingAwbAnomaly msShip).anomaly_type = AnomalyType.MISSING_AWB ∧
      (missingAwbAnomaly msShip).severity = Severity.ERROR ∧
      checkAwbConsistency [ship123] = [awbMismatchAnomaly ship123] ∧
      (awbMismatchAnomaly ship123).anomaly_type = AnomalyType.AWB_MISMATCH ∧
      (awbMismatchAnomaly ship123).severity = Severity.WARNING ∧
      checkAwbConsistency [shipGood] = [] := by
  refine ⟨checkAwbConsistency_eq shipments, ?_, by decide, rfl, rfl,
    by decide, rfl, rfl, by decide⟩
  intro s
  unfold awbCheckFor
  by_cases h1 : s.awb = "MISSING"
  · rw [if_pos h1]
    exact Nat.le_refl 1
  · rw [if_neg h1]
    by_cases h2 : okElevenSpec s.awb
    · rw [if_pos h2]
      exact Nat.zero_le 1
    · rw [if_neg h2]
      exact Nat.le_refl 1

/-! ### AWB-extraction lemmas -/

theorem digit_not_sep (c : Char) (h : c.isDigit = true) :
    isSepChar c = false := by
  unfold isSepChar isSpaceChar
  simp only [Char.isDigit, Bool.and_eq_true, decide_eq_true_eq] at h
  obtain ⟨h1, h2⟩ := h
  have h1' : 48 ≤ c.val.toNat := h1
  simp only [Bool.or_eq_false_iff, decide_eq_false_iff_not]
  and_intros <;> intro he <;>
    first
      | (subst he; exact absurd h1 (by decide))
      | (have hv : c.val.toNat = 11 := he; omega)
      | (have hv : c.val.toNat = 12 := he; omega)

theorem stripSeps_digits (d : List Char) (h : ∀ c ∈ d, c.isDigit = true) :
    stripSeps d = d := by
  unfold stripSeps
  apply List.filter_eq_self.mpr
  intro a ha
  simp only [Bool.not_eq_true']
  exact digit_not_sep a (h a ha)

theorem sepBlock_strip {r m r' : List Char} (h : sepBlock r = some (m, r')) :
    (stripSeps m).length = 4 ∧ ∀ c ∈ stripSeps m, c.isDigit = true := by
  unfold sepBlock at h
  cases r with
  | nil => exact Option.noConfusion h
  | cons c cs =>
    dsimp only at h
    by_cases hs : isSepChar c
    · rw [if_pos hs] at h
      cases htd : takeDigits 4 cs with
      | none =>
        rw [htd] at h
        exact Option.noConfusion h
      | some dr =>
        rw [htd] at h
        obtain ⟨d, rr⟩ := dr
        simp only [Option.map] at h
        injection h with h'
        injection h' with h1 h2
        subst h1
        obtain ⟨hl, hdig, _⟩ := takeDigits_some htd
        have hstrip : stripSeps (c :: d) = stripSeps d := by
          unfold stripSeps
          rw [List.filter_cons]
          simp [hs]
        rw [hstrip, stripSeps_digits d hdig]
        exact ⟨hl, hdig⟩
    · rw [if_neg hs] at h
      obtain ⟨hl, hdig, _⟩ := takeDigits_some h
      rw [stripSeps_digits m hdig]
      exact ⟨hl, hdig⟩

theorem matchCore_strip {r m r' : List Char} (h : matchCore r = some (m, r')) :
    (stripSeps m).length = 11 ∧ ∀ c ∈ stripSeps m, c.isDigit = true := by
  unfold matchCore at h
  cases h1 : takeDigits 3 r with
  | none =>
    rw [h1] at h
    exact Option.noConfusion h
  | some dr1 =>
    rw [h1] at h
    obtain ⟨d1, r1⟩ := dr1
    dsimp only at h
    cases h2 : sepBlock r1 with
    | none =>
      rw [h2] at h
      exact Option.noConfusion h
    | some dr2 =>
      rw [h2] at h
      obtain ⟨m2, r2⟩ := dr2
      dsimp only at h
      cases h3 : sepBlock r2 with
      | none =>
        rw [h3] at h
        exact Option.noConfusion h
      | some dr3 =>
        rw [h3] at h
        obtain ⟨m3, r3⟩ := dr3
        dsimp only at h
        injection h with h'
        injection h' with hm hr
        subst hm
        obtain ⟨hl1, hdig1, _⟩ := takeDigits_some h1
        obtain ⟨hl2, hdig2⟩ := sepBlock_strip h2
        obtain ⟨hl3, hdig3⟩ := sepBlock_strip h3
        have hsplit : stripSeps (d1 ++ m2 ++ m3) =
            stripSeps d1 ++ stripSeps m2 ++ stripSeps m3 := by
          unfold stripSeps
          rw [List.filter_append, List.filter_append]
        rw [hsplit, stripSeps_digits d1 hdig1]
        constructor
        · rw [List.length_append, List.length_append, hl1, hl2, hl3]
        · intro x hx
          rcases List.mem_append.mp hx with hx1 | hx3
          · rcases List.mem_append.mp hx1 with hxa | hxb
            · exact hdig1 x hxa
            · exact hdig2 x hxb
          · exact hdig3 x hx3

theorem tryMatchAt_some {prev : Option Char} {r m r' : List Char}
    (h : tryMatchAt prev r = some (m, r')) :
    matchCore r = some (m, r') := by
  unfold tryMatchAt at h
  by_cases hp : prevIsWord prev
  · rw [if_pos hp] at h
    exact Option.noConfusion h
  · rw [if_neg hp] at h
    cases hmc : matchCore r with
    | none =>
      rw [hmc] at h
      exact Option.noConfusion h
    | some pr =>
      rw [hmc] at h
      obtain ⟨m2, r2⟩ := pr
      dsimp only at h
      by_cases hw : headIsWord r2
      · rw [if_pos hw] at h
        exact Option.noConfusion h
      · rw [if_neg hw] at h
        exact h

theorem scanAux_strip :
    ∀ (fuel : Nat) (prev : Option Char) (rest : List Char),
      ∀ m ∈ scanAux fuel prev rest,
        (stripSeps m).length = 11 ∧ ∀ c ∈ stripSeps m, c.isDigit = true := by
  intro fuel
  induction fuel with
  | zero =>
    intro prev rest m hm
    exact absurd hm (List.not_mem_nil m)
  | succ fuel ih =>
    intro prev rest m hm
    cases rest with
    | nil => exact absurd hm (List.not_mem_nil m)
    | cons c cs =>
      simp only [scanAux] at hm
      cases htm : tryMatchAt prev (c :: cs) with
      | none =>
        rw [htm] at hm
        exact ih _ _ m hm
      | some pr =>
        rw [htm] at hm
        obtain ⟨mm, r'⟩ := pr
        dsimp only at hm
        rcases List.mem_cons.mp hm with rfl | hm2
        · exact matchCore_strip (tryMatchAt_some htm)
        · exact ih _ _ m hm2

/-- Claim C9: `extract_awbs` returns exactly the substrings matching the
3-4-4 AWB pattern (with optional hyphen/space separators), in document order
with duplicates, each normalised by stripping separators to an 11-digit
string; in particular the two spec examples hold, and every returned string
has length 11 and consists of digits only. -/
theorem extract_awbs_spec :
    extract_awbs "AWB: 12345678901" = ["12345678901"] ∧
      extract_awbs "AWB 123-4567-8901" = ["12345678901"] ∧
      ∀ text : String, ∀ a ∈ extract_awbs text,
        a.length = 11 ∧ a.toList.all Char.isDigit = true := by
  refine ⟨by decide, by decide, ?_⟩
  intro text a ha
  unfold extract_awbs at ha
  rcases List.mem_map.mp ha with ⟨m, hm, rfl⟩
  unfold awbFindAll at hm
  obtain ⟨hl, hdig⟩ := scanAux_strip _ _ _ m hm
  constructor
  · exact hl
  · rw [List.all_eq_true]
    intro x hx
    exact hdig x hx

/-- Witness for claim C9: the string extracted from "AWB: 12345678901" is an
11-digit string. -/
theorem extract_awbs_spec_witness :
    ("12345678901" : String).length = 11 ∧
      ("12345678901" : String).toList.all Char.isDigit = true :=
  extract_awbs_spec.2.2 "AWB: 12345678901" "12345678901" (by decide)
